import Mathlib

/-!
Verification of the command/RPC layer of this neovim snapshot.

The definitions below are a shallow embedding of the relevant source
files:

* src/src/nvim/ex_docmd.h        (the DOCMD_* flag constants)
* src/runtime/lua/vim/lsp.lua    (LSP client layer: next_client_id,
  _cmd_parts, client.request, client.cancel_request, handlers.*,
  buf_request_sync)
* src/unnamed/part_001           (util.split)
* src/unnamed/part_003           (lsp#job#start)

Lua strings are modelled as Lean String (or List Char where character
level reasoning is needed), Lua numbers used as counters/ids as Nat,
Lua tables used as arrays as List, and Lua tables used as maps as
association lists.  The vim.lsp.rpc and vim.lsp.protocol modules are
not part of the visible sources; the few operations of theirs that the
lsp.lua code calls are modelled from the spec and marked as such.
-/

namespace NvimModel

/-! ## do_cmdline flags, from src/src/nvim/ex_docmd.h lines 8-13 -/

/-- DOCMD_VERBOSE (ex_docmd.h): include command in error message. -/
def DOCMD_VERBOSE : Nat := 0x01

/-- DOCMD_NOWAIT (ex_docmd.h): do not call wait_return and friends. -/
def DOCMD_NOWAIT : Nat := 0x02

/-- DOCMD_REPEAT (ex_docmd.h): repeat execution until getline returns NULL. -/
def DOCMD_REPEAT : Nat := 0x04

/-- DOCMD_KEYTYPED (ex_docmd.h): do not reset KeyTyped. -/
def DOCMD_KEYTYPED : Nat := 0x08

/-- DOCMD_EXCRESET (ex_docmd.h): reset exception environment. -/
def DOCMD_EXCRESET : Nat := 0x10

/-- DOCMD_KEEPLINE (ex_docmd.h): keep typed line for repeating with dot. -/
def DOCMD_KEEPLINE : Nat := 0x20

/-- The six do_cmdline behavior flags, in header order. -/
def docmdFlags : List Nat :=
  [DOCMD_VERBOSE, DOCMD_NOWAIT, DOCMD_REPEAT, DOCMD_KEYTYPED, DOCMD_EXCRESET, DOCMD_KEEPLINE]

/-- Or-ing in one power of two does not change the bits selected by a
different power of two. -/
theorem lor_pow_and_pow {i j : Nat} (hij : i ≠ j) (n : Nat) :
    (n ||| 2 ^ i) &&& 2 ^ j = n &&& 2 ^ j := by
  apply Nat.eq_of_testBit_eq
  intro k
  rcases eq_or_ne k j with rfl | hk
  · simp [Nat.testBit_two_pow, hij]
  · simp [Nat.testBit_two_pow, (Ne.symm hk)]

/-- Xor-ing (toggling) one power of two does not change the bits selected
by a different power of two. -/
theorem lxor_pow_and_pow {i j : Nat} (hij : i ≠ j) (n : Nat) :
    (n ^^^ 2 ^ i) &&& 2 ^ j = n &&& 2 ^ j := by
  apply Nat.eq_of_testBit_eq
  intro k
  rcases eq_or_ne k j with rfl | hk
  · simp [Nat.testBit_two_pow, hij]
  · simp [Nat.testBit_two_pow, (Ne.symm hk)]

/-- C7: the six do_cmdline flags are the six distinct single bits
2^0 .. 2^5, hence pairwise distinct, and in any flags bit-set each one
can be set (or-ed in) or toggled (xor-ed, which also clears it) without
changing whether any of the other five is set. -/
theorem docmd_flags_independent_bits :
    docmdFlags = [2 ^ 0, 2 ^ 1, 2 ^ 2, 2 ^ 3, 2 ^ 4, 2 ^ 5]
    ∧ docmdFlags.Pairwise (fun a b => a ≠ b)
    ∧ ∀ a ∈ docmdFlags, ∀ b ∈ docmdFlags, a ≠ b → ∀ flags : Nat,
        ((flags ||| a) &&& b = flags &&& b) ∧ ((flags ^^^ a) &&& b = flags &&& b) := by
  refine ⟨by decide, by decide, ?_⟩
  have hexp : ∀ a ∈ docmdFlags, ∃ i, i < 6 ∧ a = 2 ^ i := by decide
  intro a ha b hb hab flags
  obtain ⟨i, _, rfl⟩ := hexp a ha
  obtain ⟨j, _, rfl⟩ := hexp b hb
  have hij : i ≠ j := by
    intro h
    exact hab (by rw [h])
  exact ⟨lor_pow_and_pow hij flags, lxor_pow_and_pow hij flags⟩

/-- Witness for C7 at a concrete pair of flags and flag set. -/
theorem docmd_flags_independent_bits_witness :
    docmdFlags = [2 ^ 0, 2 ^ 1, 2 ^ 2, 2 ^ 3, 2 ^ 4, 2 ^ 5]
    ∧ (5 ||| DOCMD_NOWAIT) &&& DOCMD_VERBOSE = 5 &&& DOCMD_VERBOSE
    ∧ (5 ^^^ DOCMD_NOWAIT) &&& DOCMD_VERBOSE = 5 &&& DOCMD_VERBOSE := by
  have h := docmd_flags_independent_bits
  have h2 := h.2.2 DOCMD_NOWAIT (by decide) DOCMD_VERBOSE (by decide) (by decide) 5
  exact ⟨h.1, h2.1, h2.2⟩

/-! ## next_client_id, from src/runtime/lua/vim/lsp.lua lines 73-81

local client_index = 0
local function next_client_id()
  client_index = client_index + 1
  return client_index
end

The global client_index is made an explicit state argument; the
function returns the allocated id and the new state. -/

/-- Embedding of next_client_id: increments client_index and returns it. -/
def next_client_id (client_index : Nat) : Nat × Nat :=
  (client_index + 1, client_index + 1)

/-- The ids returned by n successive calls of next_client_id starting
from state client_index = c, in call order. -/
def client_ids_from (c : Nat) : Nat → List Nat
  | 0 => []
  | n + 1 => (next_client_id c).1 :: client_ids_from (next_client_id c).2 n

/-- Every id allocated starting from state c is strictly above c. -/
theorem client_ids_from_gt {n c x : Nat} (hx : x ∈ client_ids_from c n) : c < x := by
  induction n generalizing c with
  | zero => simp [client_ids_from] at hx
  | succ n ih =>
    simp only [client_ids_from, next_client_id, List.mem_cons] at hx
    rcases hx with rfl | hx
    · omega
    · have := ih hx
      omega

/-- C8: next_client_id is strictly monotonic: over any run of n calls
from any starting state, each returned id is strictly greater than all
earlier returned ids; in particular all allocated ids are distinct. -/
theorem next_client_id_strictly_monotonic (c n : Nat) :
    (client_ids_from c n).Pairwise (fun a b => a < b)
    ∧ (client_ids_from c n).Nodup := by
  have hp : ∀ m d, (client_ids_from d m).Pairwise (fun a b => a < b) := by
    intro m
    induction m with
    | zero => intro d; simp [client_ids_from]
    | succ m ih =>
      intro d
      simp only [client_ids_from, next_client_id, List.pairwise_cons]
      exact ⟨fun x hx => client_ids_from_gt hx, ih (d + 1)⟩
  refine ⟨hp n c, ?_⟩
  exact (hp n c).imp (fun h => Nat.ne_of_lt h)

/-! ## lsp._cmd_parts, from src/runtime/lua/vim/lsp.lua lines 137-153

function lsp._cmd_parts(input)
  local cmd = input[1]
  local cmd_args = {}
  for i, v in ipairs(input) do
    if i > 1 then table.insert(cmd_args, v) end
  end
  return cmd, cmd_args
end

The ipairs loop is embedded with its 1-based index i as an explicit
argument; table.insert appends in iteration order.  The input table is
only read, so the embedding also returns the input list unchanged, to
state the frame condition. -/

/-- Embedding of the ipairs loop body of lsp._cmd_parts: keeps the
elements whose 1-based index is greater than 1, in order. -/
def cmd_parts_loop : Nat → List String → List String
  | _, [] => []
  | i, v :: rest =>
    if 1 < i then v :: cmd_parts_loop (i + 1) rest
    else cmd_parts_loop (i + 1) rest

/-- Result of lsp._cmd_parts: the command (input[1], none for an empty
list), the argument list, and the input table after the call. -/
structure CmdParts where
  cmd : Option String
  cmd_args : List String
  input_after : List String
deriving DecidableEq, Repr

/-- Embedding of lsp._cmd_parts. -/
def lsp_cmd_parts (input : List String) : CmdParts :=
  { cmd := input.head?
    cmd_args := cmd_parts_loop 1 input
    input_after := input }

/-- Once the loop index is at least 2, every remaining element is kept. -/
theorem cmd_parts_loop_ge_two :
    ∀ (rest : List String) (i : Nat), 2 ≤ i → cmd_parts_loop i rest = rest := by
  intro rest
  induction rest with
  | nil => intro i _; rfl
  | cons v t ih =>
    intro i hi
    have h1 : 1 < i := by omega
    simp only [cmd_parts_loop, if_pos h1]
    rw [ih (i + 1) (by omega)]

/-- C10: on a non-empty input list, lsp._cmd_parts returns the head as
the command and exactly the remaining elements, in order, as the
arguments, and the input list itself is unchanged. -/
theorem lsp_cmd_parts_spec (x : String) (xs : List String) :
    lsp_cmd_parts (x :: xs) =
      { cmd := some x, cmd_args := xs, input_after := x :: xs } := by
  simp only [lsp_cmd_parts, List.head?, cmd_parts_loop]
  rw [if_neg (by omega)]
  rw [cmd_parts_loop_ge_two xs 2 (by omega)]

/-! ## util.split, from src/unnamed/part_001 lines 5-29

util.split = function(s, sep, nMax, bRegexp)
  assert(sep ~= '')
  assert(nMax == nil or nMax >= 1)
  local aRecord = {}
  if s:len() > 0 then
    local bPlain = not bRegexp
    nMax = nMax or -1
    local nField, nStart = 1, 1
    local nFirst, nLast = s:find(sep, nStart, bPlain)
    while nFirst and nMax ~= 0 do
      aRecord[nField] = s:sub(nStart, nFirst - 1)
      nField = nField + 1
      nStart = nLast + 1
      nFirst, nLast = s:find(sep, nStart, bPlain)
      nMax = nMax - 1
    end
    aRecord[nField] = s:sub(nStart)
  end
  return aRecord
end

Strings are Lists of Chars.  Lua s:find(sep, nStart, true) is plain
(non-regexp) leftmost substring search from position nStart; since
plain search is translation invariant, the loop is embedded as a
recursion on the remaining suffix of s (everything from nStart on),
with findSub giving the 0-based offset of the first occurrence of sep
in that suffix.  The claim fixes plain matching, so only the
bPlain = true branch of find is embedded.  The failed-assert cases
return none. -/

/-- Plain-mode substring search: 0-based offset of the leftmost
occurrence of pat in s, if any (Lua string.find with plain = true,
restricted to the searched suffix). -/
def findSub (pat : List Char) : List Char → Option Nat
  | [] => if List.isPrefixOf pat [] then some 0 else none
  | c :: t =>
    if List.isPrefixOf pat (c :: t) then some 0
    else (findSub pat t).map (fun n => n + 1)

/-- A found occurrence lies entirely inside the searched string. -/
theorem findSub_le_length {pat : List Char} :
    ∀ {s : List Char} {i : Nat}, findSub pat s = some i → i + pat.length ≤ s.length := by
  intro s
  induction s with
  | nil =>
    intro i h
    simp only [findSub] at h
    split at h
    · obtain ⟨r, hr⟩ := List.isPrefixOf_iff_prefix.mp (by assumption)
      obtain ⟨hpat, -⟩ := List.append_eq_nil.mp hr
      injection h with h0
      subst h0
      simp [hpat]
    · simp at h
  | cons c t ih =>
    intro i h
    simp only [findSub] at h
    split at h
    · obtain ⟨r, hr⟩ := List.isPrefixOf_iff_prefix.mp (by assumption)
      injection h with h0
      subst h0
      have := congrArg List.length hr
      simp only [List.length_append, List.length_cons] at this
      simp only [List.length_cons]
      omega
    · obtain ⟨n, hn, rfl⟩ := Option.map_eq_some'.mp h
      have := ih hn
      simp only [List.length_cons]
      omega

/-- Decomposition at a found occurrence: the text before the match, the
pattern, and the text after the match reassemble to the whole string. -/
theorem findSub_decomp {pat : List Char} :
    ∀ {s : List Char} {i : Nat}, findSub pat s = some i →
      s.take i ++ pat ++ s.drop (i + pat.length) = s := by
  intro s
  induction s with
  | nil =>
    intro i h
    simp only [findSub] at h
    split at h
    · obtain ⟨r, hr⟩ := List.isPrefixOf_iff_prefix.mp (by assumption)
      obtain ⟨hpat, -⟩ := List.append_eq_nil.mp hr
      injection h with h0
      subst h0
      simp [hpat]
    · simp at h
  | cons c t ih =>
    intro i h
    simp only [findSub] at h
    split at h
    · obtain ⟨r, hr⟩ := List.isPrefixOf_iff_prefix.mp (by assumption)
      injection h with h0
      subst h0
      simp only [List.take_zero, List.nil_append, Nat.zero_add]
      rw [← hr, List.drop_left]
    · obtain ⟨n, hn, rfl⟩ := Option.map_eq_some'.mp h
      have hrec := ih hn
      have harith : n + 1 + pat.length = (n + pat.length) + 1 := by omega
      rw [harith]
      simp only [List.take_succ_cons, List.drop_succ_cons, List.cons_append]
      rw [hrec]

/-- Embedding of the while loop of util.split.  The argument s is the
remaining suffix of the subject string (from Lua position nStart on),
nMax the remaining field budget (Lua nMax, negative meaning unlimited),
and fuel a bound on the iteration count (each iteration consumes at
least one character of s, so length s is enough fuel). -/
def splitGo (sep : List Char) : Nat → List Char → Int → List (List Char)
  | 0, s, _ => [s]
  | fuel + 1, s, nMax =>
    match findSub sep s with
    | none => [s]
    | some i =>
      if nMax = 0 then [s]
      else s.take i :: splitGo sep fuel (s.drop (i + sep.length)) (nMax - 1)

/-- Validity check of the second assert of util.split. -/
def nMaxInvalid : Option Int → Bool
  | none => false
  | some n => decide (n < 1)

/-- Embedding of util.split with plain matching.  Returns none exactly
when one of the two leading asserts fires (empty separator, or a field
limit below 1). -/
def util_split (s sep : List Char) (nMax : Option Int) : Option (List (List Char)) :=
  if sep = [] then none
  else if nMaxInvalid nMax then none
  else some (if 0 < s.length then splitGo sep s.length s (nMax.getD (-1)) else [])

/-- Embedding of Lua table.concat with a separator. -/
def joinWith (sep : List Char) : List (List Char) → List Char
  | [] => []
  | [x] => x
  | x :: y :: rest => x ++ sep ++ joinWith sep (y :: rest)

/-- Step equation of splitGo when no further separator occurs. -/
theorem splitGo_succ_none (sep : List Char) (fuel : Nat) (s : List Char) (nMax : Int)
    (h : findSub sep s = none) : splitGo sep (fuel + 1) s nMax = [s] := by
  simp only [splitGo, h]

/-- Step equation of splitGo when the field budget is exhausted. -/
theorem splitGo_succ_stop (sep : List Char) (fuel : Nat) (s : List Char) {nMax : Int}
    (i : Nat) (h : findSub sep s = some i) (hm : nMax = 0) :
    splitGo sep (fuel + 1) s nMax = [s] := by
  simp only [splitGo, h]
  rw [if_pos hm]

/-- Step equation of splitGo at a found separator with budget left. -/
theorem splitGo_succ_step (sep : List Char) (fuel : Nat) (s : List Char) {nMax : Int}
    (i : Nat) (h : findSub sep s = some i) (hm : nMax ≠ 0) :
    splitGo sep (fuel + 1) s nMax
      = s.take i :: splitGo sep fuel (s.drop (i + sep.length)) (nMax - 1) := by
  simp only [splitGo, h]
  rw [if_neg hm]

/-- The split loop always produces at least one field. -/
theorem splitGo_ne_nil (sep : List Char) (fuel : Nat) (s : List Char) (nMax : Int) :
    splitGo sep fuel s nMax ≠ [] := by
  cases fuel with
  | zero => simp [splitGo]
  | succ fuel =>
    cases h : findSub sep s with
    | none => rw [splitGo_succ_none sep fuel s nMax h]; simp
    | some i =>
      rcases Decidable.em (nMax = 0) with hm | hm
      · rw [splitGo_succ_stop sep fuel s i h hm]; simp
      · rw [splitGo_succ_step sep fuel s i h hm]; simp

/-- joinWith on a cons with a non-empty tail inserts one separator. -/
theorem joinWith_cons (sep x : List Char) {l : List (List Char)} (hl : l ≠ []) :
    joinWith sep (x :: l) = x ++ sep ++ joinWith sep l := by
  cases l with
  | nil => exact absurd rfl hl
  | cons y rest => rfl

/-- Joining the fields produced by the split loop with the separator
restores the input suffix, whenever the field budget is unlimited
(negative) and the fuel covers the length of the input. -/
theorem splitGo_join (sep : List Char) (hsep : sep ≠ []) :
    ∀ (fuel : Nat) (s : List Char) (nMax : Int), s.length ≤ fuel → nMax < 0 →
      joinWith sep (splitGo sep fuel s nMax) = s := by
  intro fuel
  induction fuel with
  | zero => intro s nMax _ _; rfl
  | succ fuel ih =>
    intro s nMax hs hm
    cases h : findSub sep s with
    | none => rw [splitGo_succ_none sep fuel s nMax h]; rfl
    | some i =>
      rw [splitGo_succ_step sep fuel s i h (by omega)]
      have hle := findSub_le_length h
      have hsl : 0 < sep.length := List.length_pos.mpr hsep
      have hdrop : (s.drop (i + sep.length)).length ≤ fuel := by
        rw [List.length_drop]; omega
      rw [joinWith_cons sep _ (splitGo_ne_nil sep fuel _ _)]
      rw [ih _ _ hdrop (by omega)]
      exact findSub_decomp h

/-- C9: with plain matching and no field limit, for every string s and
non-empty separator, util.split succeeds and joining its fields back
with the separator yields exactly s; util.split of the empty string is
the empty list. -/
theorem util_split_join_roundtrip (s sep : List Char) (hsep : sep ≠ []) :
    (∃ fields, util_split s sep none = some fields ∧ joinWith sep fields = s)
    ∧ util_split [] sep none = some [] := by
  have h1 : util_split s sep none
      = some (if 0 < s.length then splitGo sep s.length s (-1) else []) := by
    simp [util_split, hsep, nMaxInvalid]
  refine ⟨⟨_, h1, ?_⟩, ?_⟩
  · rcases Decidable.em (0 < s.length) with hs | hs
    · rw [if_pos hs]
      exact splitGo_join sep hsep s.length s (-1) (Nat.le_refl _) (by omega)
    · rw [if_neg hs]
      have hnil : s = [] := List.length_eq_zero.mp (by omega)
      rw [hnil]
      rfl
  · simp [util_split, hsep, nMaxInvalid]

/-- Witness for C9 at a concrete input. -/
theorem util_split_join_roundtrip_witness :
    (∃ fields, util_split ['a', ',', 'b'] [','] none = some fields
        ∧ joinWith [','] fields = ['a', ',', 'b'])
    ∧ util_split [] [','] none = some [] :=
  util_split_join_roundtrip ['a', ',', 'b'] [','] (by decide)

/-! ## The async RPC client layer

client.request, client.cancel_request and the server handlers live in
src/runtime/lua/vim/lsp.lua; the vim.lsp.rpc module they are layered on
is not among the visible sources, so its state and the operations
lsp.lua calls (rpc.request, rpc.notify, response dispatch) are modelled
from the spec, as marked on each definition. -/

/-- Params of a message: an opaque user payload, or the id table sent
by client.cancel_request. -/
inductive Params where
  | payload (s : String)
  | cancelParams (id : Nat)
deriving DecidableEq, Repr

/-- A frame written to the wire: a request with correlation id, or a
fire-and-forget notification. -/
inductive Frame where
  | requestMsg (id : Nat) (method : String) (params : Params)
  | notifyMsg (method : String) (params : Params)
deriving DecidableEq, Repr

/-- Lookup in an association list keyed by correlation id. -/
def lookupKey {α : Type} (id : Nat) : List (Nat × α) → Option α
  | [] => none
  | p :: rest => if p.1 = id then some p.2 else lookupKey id rest

/-- Removal of all entries with the given key. -/
def removeKey {α : Type} (id : Nat) : List (Nat × α) → List (Nat × α)
  | [] => []
  | p :: rest => if p.1 = id then removeKey id rest else p :: removeKey id rest

/-- Modelled from the spec: the state of one RPC client (the vim.lsp.rpc
module is missing from the visible sources): the monotonic correlation
id counter, the pending map id to callback, the frames written so far in
order, and whether the underlying job has exited. -/
structure RpcState (α : Type) where
  message_index : Nat
  pending : List (Nat × α)
  sent : List Frame
  closed : Bool
deriving DecidableEq, Repr

/-- Modelled from the spec: the rpc request operation (vim.lsp.rpc):
allocates a fresh correlation id (monotonic), records the id to callback
entry in the pending map, writes the request frame, and returns the id;
returns none (status false) when the client has shut down. -/
def rpc_request {α : Type} (st : RpcState α) (method : String) (params : Params) (cb : α) :
    Option Nat × RpcState α :=
  if st.closed then (none, st)
  else
    (some (st.message_index + 1),
      { message_index := st.message_index + 1
        pending := (st.message_index + 1, cb) :: st.pending
        sent := st.sent ++ [Frame.requestMsg (st.message_index + 1) method params]
        closed := st.closed })

/-- Modelled from the spec: the rpc notify operation (vim.lsp.rpc):
fire and forget; fails silently (returns false) once the job exited. -/
def rpc_notify {α : Type} (st : RpcState α) (method : String) (params : Params) :
    Bool × RpcState α :=
  if st.closed then (false, st)
  else (true, { st with sent := st.sent ++ [Frame.notifyMsg method params] })

/-- Modelled from the spec: response dispatch (vim.lsp.rpc): look the id
up in the pending map; if found, remove the entry and hand the callback
out for its single invocation; if not found, drop silently. -/
def rpc_handle_response {α : Type} (st : RpcState α) (id : Nat) :
    Option α × RpcState α :=
  match lookupKey id st.pending with
  | some cb => (some cb, { st with pending := removeKey id st.pending })
  | none => (none, st)

/-- The resolved_capabilities bits consulted by client.request
(lsp.lua 643-652). -/
structure ResolvedCapabilities where
  hover : Bool
  signature_help : Bool
  goto_definition : Bool
  implementation : Bool
  declaration : Bool
  type_definition : Bool
  document_symbol : Bool
  workspace_symbol : Bool
  call_hierarchy : Bool
deriving DecidableEq, Repr

/-- The capability test of client.request (lsp.lua 643-652): true when
the method is one of the nine gated ones and its capability was not
resolved. -/
def unsupported_check (caps : ResolvedCapabilities) (method : String) : Bool :=
  (!caps.hover && method == "textDocument/hover")
  || (!caps.signature_help && method == "textDocument/signatureHelp")
  || (!caps.goto_definition && method == "textDocument/definition")
  || (!caps.implementation && method == "textDocument/implementation")
  || (!caps.declaration && method == "textDocument/declaration")
  || (!caps.type_definition && method == "textDocument/typeDefinition")
  || (!caps.document_symbol && method == "textDocument/documentSymbol")
  || (!caps.workspace_symbol && method == "textDocument/workspaceSymbol")
  || (!caps.call_hierarchy && method == "textDocument/prepareCallHierarchy")

/-- Embedding of resolve_callback (lsp.lua 424-426): the user callback
registered for the method, else the default callback. -/
def resolve_callback {α : Type} (user_cbs default_cbs : String → Option α) (method : String) :
    Option α :=
  match user_cbs method with
  | some cb => some cb
  | none => default_cbs method

/-- The anonymous wrapper client.request hands to rpc.request
(lsp.lua 656-658): it closes over the chosen callback, the method, the
client id and the buffer. -/
inductive WireCb (α : Type) where
  | wrap (user : α) (method : String) (client_id : Nat) (bufnr : Nat)
deriving DecidableEq, Repr

/-- Outcome of client.request (lsp.lua 634-659): the lua error raised
when no callback resolves; the early return after an unsupported-method
callback invocation; status false from rpc.request after shutdown; or
the returned request id. -/
inductive ClientRequestOutcome where
  | no_callback
  | unsupported (method : String)
  | shutdown
  | requested (id : Nat)
deriving DecidableEq, Repr

/-- Embedding of client.request (lsp.lua 634-659): resolve the
callback (explicit argument, else client callbacks, else defaults),
run the capability check, then call rpc.request with the wrapper. -/
def client_request {α : Type} (caps : ResolvedCapabilities)
    (user_cbs default_cbs : String → Option α) (client_id bufnr : Nat)
    (st : RpcState (WireCb α)) (method : String) (params : Params)
    (callback : Option α) : ClientRequestOutcome × RpcState (WireCb α) :=
  match (match callback with
         | some cb => some cb
         | none => resolve_callback user_cbs default_cbs method) with
  | none => (ClientRequestOutcome.no_callback, st)
  | some cb =>
    if unsupported_check caps method then (ClientRequestOutcome.unsupported method, st)
    else
      match rpc_request st method params (WireCb.wrap cb method client_id bufnr) with
      | (some id, st2) => (ClientRequestOutcome.requested id, st2)
      | (none, st2) => (ClientRequestOutcome.shutdown, st2)

/-- Embedding of client.cancel_request (lsp.lua 680-683): a single
rpc.notify of $/cancelRequest carrying the id; nothing else. -/
def cancel_request {α : Type} (st : RpcState α) (id : Nat) : Bool × RpcState α :=
  rpc_notify st "$/cancelRequest" (Params.cancelParams id)

/-- An id above the counter bound of a pending map is not in it. -/
theorem lookupKey_none_of_bound {α : Type} {l : List (Nat × α)} {m : Nat}
    (hb : ∀ p ∈ l, p.1 ≤ m) : lookupKey (m + 1) l = none := by
  induction l with
  | nil => rfl
  | cons p rest ih =>
    have hp := hb p (by simp)
    simp only [lookupKey]
    rw [if_neg (by omega)]
    exact ih (fun q hq => hb q (by simp [hq]))

/-- C1 (amended): whenever client.request resolves a callback, passes
the capability check and the client has not shut down, it allocates the
next correlation id - fresh in the sense that it exceeds the counter
and (given the counter bounds the pending keys) is not already pending -
records the wrapped callback under it, appends the request frame to the
wire, and returns that id. -/
theorem client_request_allocates_fresh_id {α : Type} (caps : ResolvedCapabilities)
    (user_cbs default_cbs : String → Option α) (client_id bufnr : Nat)
    (st : RpcState (WireCb α)) (method : String) (params : Params)
    (callback : Option α) (cb : α)
    (hcb : (match callback with
            | some c => some c
            | none => resolve_callback user_cbs default_cbs method) = some cb)
    (hcap : unsupported_check caps method = false)
    (hopen : st.closed = false)
    (hbound : ∀ p ∈ st.pending, p.1 ≤ st.message_index) :
    (client_request caps user_cbs default_cbs client_id bufnr st method params callback).1
      = ClientRequestOutcome.requested (st.message_index + 1)
    ∧ lookupKey (st.message_index + 1) st.pending = none
    ∧ (client_request caps user_cbs default_cbs client_id bufnr st method params callback).2.message_index
      = st.message_index + 1
    ∧ lookupKey (st.message_index + 1)
        (client_request caps user_cbs default_cbs client_id bufnr st method params callback).2.pending
      = some (WireCb.wrap cb method client_id bufnr)
    ∧ (client_request caps user_cbs default_cbs client_id bufnr st method params callback).2.sent
      = st.sent ++ [Frame.requestMsg (st.message_index + 1) method params] := by
  have hstep : client_request caps user_cbs default_cbs client_id bufnr st method params callback
      = (ClientRequestOutcome.requested (st.message_index + 1),
          { message_index := st.message_index + 1
            pending := (st.message_index + 1, WireCb.wrap cb method client_id bufnr) :: st.pending
            sent := st.sent ++ [Frame.requestMsg (st.message_index + 1) method params]
            closed := st.closed }) := by
    simp only [client_request, hcb, hcap, rpc_request, hopen]
    simp
  rw [hstep]
  refine ⟨rfl, lookupKey_none_of_bound hbound, rfl, ?_, rfl⟩
  simp [lookupKey]

/-- Concrete capability table with nothing resolved. -/
def capsNone : ResolvedCapabilities :=
  ⟨false, false, false, false, false, false, false, false, false⟩

/-- Concrete empty callback table. -/
def noCbs : String → Option Nat := fun _ => none

/-- Concrete initial RPC state. -/
def rpcState0 : RpcState (WireCb Nat) :=
  { message_index := 0, pending := [], sent := [], closed := false }

/-- Witness for C1 at a concrete input: the first request on a fresh
client gets id 1, its wrapped callback is pending, and the frame is on
the wire. -/
theorem client_request_allocates_fresh_id_witness :
    (client_request capsNone noCbs noCbs 1 1 rpcState0 "initialize" (Params.payload "p") (some 5)).1
      = ClientRequestOutcome.requested 1
    ∧ lookupKey 1 rpcState0.pending = none
    ∧ (client_request capsNone noCbs noCbs 1 1 rpcState0 "initialize" (Params.payload "p") (some 5)).2.message_index = 1
    ∧ lookupKey 1
        (client_request capsNone noCbs noCbs 1 1 rpcState0 "initialize" (Params.payload "p") (some 5)).2.pending
      = some (WireCb.wrap 5 "initialize" 1 1)
    ∧ (client_request capsNone noCbs noCbs 1 1 rpcState0 "initialize" (Params.payload "p") (some 5)).2.sent
      = rpcState0.sent ++ [Frame.requestMsg 1 "initialize" (Params.payload "p")] :=
  client_request_allocates_fresh_id capsNone noCbs noCbs 1 1 rpcState0 "initialize"
    (Params.payload "p") (some 5) 5 rfl (by decide) rfl (by simp [rpcState0])

/-- C1 counterexample: a client.request call whose method fails the
capability check (textDocument/hover with hover unresolved) returns the
early unsupported outcome - not a requested id - and leaves the RPC
state byte-for-byte unchanged: no id allocated, no callback recorded,
no frame written, no id returned. -/
theorem client_request_not_always_id :
    (client_request capsNone noCbs noCbs 1 1 rpcState0 "textDocument/hover"
        (Params.payload "p") (some 7))
      = (ClientRequestOutcome.unsupported "textDocument/hover", rpcState0) := by
  decide

/-- C2 (amended): cancel_request only sends the best-effort
$/cancelRequest notification; the pending map is untouched, and a
response for the cancelled id still hands out the recorded callback. -/
theorem cancel_request_keeps_pending {α : Type} (st : RpcState α) (id : Nat) :
    (cancel_request st id).2.pending = st.pending
    ∧ (st.closed = false →
        (cancel_request st id).1 = true
        ∧ (cancel_request st id).2.sent
            = st.sent ++ [Frame.notifyMsg "$/cancelRequest" (Params.cancelParams id)])
    ∧ ∀ cb, lookupKey id st.pending = some cb →
        (rpc_handle_response (cancel_request st id).2 id).1 = some cb := by
  rcases Decidable.em (st.closed = true) with hc | hc
  · refine ⟨by simp [cancel_request, rpc_notify, hc], ?_, ?_⟩
    · intro h
      rw [h] at hc
      exact absurd hc (by simp)
    · intro cb hcb
      simp [cancel_request, rpc_notify, hc, rpc_handle_response, hcb]
  · have hc2 : st.closed = false := by
      cases h : st.closed
      · rfl
      · exact absurd h hc
    refine ⟨by simp [cancel_request, rpc_notify, hc2], ?_, ?_⟩
    · intro _
      constructor
      · simp [cancel_request, rpc_notify, hc2]
      · simp [cancel_request, rpc_notify, hc2]
    · intro cb hcb
      simp [cancel_request, rpc_notify, hc2, rpc_handle_response, hcb]

/-- Concrete one-pending-request state. -/
def rpcStatePending : RpcState Nat :=
  { message_index := 1, pending := [(1, 7)], sent := [], closed := false }

/-- Witness for C2 (amended) at a concrete input. -/
theorem cancel_request_keeps_pending_witness :
    (cancel_request rpcStatePending 1).2.pending = [(1, 7)]
    ∧ (cancel_request rpcStatePending 1).1 = true
    ∧ (rpc_handle_response (cancel_request rpcStatePending 1).2 1).1 = some 7 := by
  have h := cancel_request_keeps_pending rpcStatePending 1
  exact ⟨h.1, (h.2.1 rfl).1, h.2.2 7 rfl⟩

/-- C2 counterexample: request (gets id 1), cancel id 1, then deliver a
response with id 1: the id is still pending after the cancel and the
response hands the recorded callback out for invocation. -/
theorem cancel_then_respond_invokes_callback :
    lookupKey 1 (cancel_request
        (client_request capsNone noCbs noCbs 1 1 rpcState0 "initialize"
          (Params.payload "p") (some 7)).2 1).2.pending
      = some (WireCb.wrap 7 "initialize" 1 1)
    ∧ (rpc_handle_response (cancel_request
        (client_request capsNone noCbs noCbs 1 1 rpcState0 "initialize"
          (Params.payload "p") (some 7)).2 1).2 1).1
      = some (WireCb.wrap 7 "initialize" 1 1) := by
  constructor
  · decide
  · decide

/-! ## handlers.server_request, from src/runtime/lua/vim/lsp.lua 449-458 -/

/-- Shape of an RPC error response object.  Modelled from the spec: a
code, message, optional data envelope. -/
structure RpcError where
  code : Int
  message : String
  data : Option String
deriving DecidableEq, Repr

/-- Modelled from the spec: protocol.ErrorCodes.MethodNotFound
(vim.lsp.protocol is not among the visible sources): the standard
method-not-found error code. -/
def ErrorCodes_MethodNotFound : Int := -32601

/-- Modelled from the spec: the name used as default message for a
known error code. -/
def error_code_name (code : Int) : String :=
  if code = ErrorCodes_MethodNotFound then "MethodNotFound" else "UnknownErrorCode"

/-- Modelled from the spec: vim.lsp.rpc_response_error builds a
well-formed error response object from a code and optional message and
data. -/
def rpc_response_error (code : Int) (message : Option String) (data : Option String) : RpcError :=
  { code := code, message := message.getD (error_code_name code), data := data }

/-- A server-request callback: receives (method, params, client_id) and
returns the pair (result, err). -/
def ServerCb : Type := String → Params → Nat → Option String × Option RpcError

/-- Embedding of handlers.server_request (lsp.lua 449-458): resolve the
callback for the method and return its result; with no callback, return
nil paired with a MethodNotFound error response. -/
def server_request (user_cbs default_cbs : String → Option ServerCb)
    (client_id : Nat) (method : String) (params : Params) :
    Option String × Option RpcError :=
  match resolve_callback user_cbs default_cbs method with
  | some cb => cb method params client_id
  | none => (none, some (rpc_response_error ErrorCodes_MethodNotFound none none))

/-- C3: handlers.server_request always produces a reply: with no
callback for the method it is a nil result paired with a well-formed
MethodNotFound error (non-empty message, the method-not-found code);
with a callback it is exactly the callback's result. -/
theorem server_request_replies (user_cbs default_cbs : String → Option ServerCb)
    (client_id : Nat) (method : String) (params : Params) :
    (resolve_callback user_cbs default_cbs method = none →
      server_request user_cbs default_cbs client_id method params
        = (none, some { code := ErrorCodes_MethodNotFound, message := "MethodNotFound", data := none }))
    ∧ (∀ cb, resolve_callback user_cbs default_cbs method = some cb →
        server_request user_cbs default_cbs client_id method params
          = cb method params client_id) := by
  constructor
  · intro h
    simp [server_request, h, rpc_response_error, error_code_name]
  · intro cb h
    simp [server_request, h]

/-- Concrete server-request callback tables for the witness. -/
def noServerCbs : String → Option ServerCb := fun _ => none

/-- A concrete server-request callback returning a fixed result. -/
def oneServerCb : ServerCb := fun _ _ _ => (some "ok", none)

/-- Concrete callback table with one registered method. -/
def serverCbs : String → Option ServerCb :=
  fun m => if m = "textDocument/definition" then some oneServerCb else none

/-- Witness for C3 at concrete inputs: an unknown method gets the
MethodNotFound reply, a registered one gets its callback's result. -/
theorem server_request_replies_witness :
    server_request noServerCbs noServerCbs 1 "foo" (Params.payload "p")
      = (none, some { code := ErrorCodes_MethodNotFound, message := "MethodNotFound", data := none })
    ∧ server_request serverCbs noServerCbs 1 "textDocument/definition" (Params.payload "p")
      = (some "ok", none) := by
  constructor
  · exact (server_request_replies noServerCbs noServerCbs 1 "foo" (Params.payload "p")).1 rfl
  · exact (server_request_replies serverCbs noServerCbs 1 "textDocument/definition"
      (Params.payload "p")).2 oneServerCb rfl

/-! ## lsp#job#start, from src/unnamed/part_003 lines 17-29

function! lsp#job#start(cmd) abort
  let job_id = jobstart(a:cmd, s:LspClient)
  if job_id == 0
    echoerr 'Invalid arguments for LSP'
    throw LSP/failed
  elseif job_id == -1
    echoerr 'Not a valid executable: ' . string(a:cmd)
    throw LSP/failed
  endif
  return job_id
endfunction

jobstart runs outside the program, so its result is an input of the
embedding. -/

/-- The two failure kinds of lsp#job#start, each carrying the echoerr
message it reports before throwing. -/
inductive JobStartFailure where
  | invalidArgument (echoed : String)
  | spawnFailure (echoed : String)
deriving DecidableEq, Repr

/-- Embedding of lsp#job#start: 0 from jobstart means invalid
arguments, -1 means not executable, anything else is the job handle. -/
def lsp_job_start (cmd : String) (jobstart_result : Int) : Except JobStartFailure Int :=
  if jobstart_result = 0 then
    Except.error (JobStartFailure.invalidArgument "Invalid arguments for LSP")
  else if jobstart_result = -1 then
    Except.error (JobStartFailure.spawnFailure ("Not a valid executable: " ++ cmd))
  else Except.ok jobstart_result

/-- The invalid-arguments message never coincides with a
not-executable message, whatever the command text. -/
theorem invalid_msg_ne_spawn_msg (s : String) :
    "Invalid arguments for LSP" ≠ "Not a valid executable: " ++ s := by
  intro h
  have h2 := congrArg (fun t => t.data.head?) h
  simp only [String.data_append, List.head?_append] at h2
  have h3 : "Invalid arguments for LSP".data.head? = some 'I' := rfl
  have h4 : "Not a valid executable: ".data.head? = some 'N' := rfl
  rw [h3, h4] at h2
  simp only [Option.or] at h2
  exact absurd h2 (by decide)

/-- C4: lsp#job#start reports the invalid-argument failure (jobstart 0)
and the OS spawn failure (jobstart -1) through distinct failure values
with distinct messages, never merged, and on success returns the job
handle unchanged. -/
theorem lsp_job_start_distinct_failures (cmd cmd2 : String) (r : Int) :
    lsp_job_start cmd 0
      = Except.error (JobStartFailure.invalidArgument "Invalid arguments for LSP")
    ∧ lsp_job_start cmd (-1)
      = Except.error (JobStartFailure.spawnFailure ("Not a valid executable: " ++ cmd))
    ∧ (∀ m m2 : String, JobStartFailure.invalidArgument m ≠ JobStartFailure.spawnFailure m2)
    ∧ "Invalid arguments for LSP" ≠ "Not a valid executable: " ++ cmd
    ∧ (r ≠ 0 → r ≠ -1 → lsp_job_start cmd2 r = Except.ok r) := by
  refine ⟨rfl, rfl, ?_, invalid_msg_ne_spawn_msg cmd, ?_⟩
  · intro m m2 h
    exact JobStartFailure.noConfusion h
  · intro h0 h1
    simp [lsp_job_start, h0, h1]

/-- Witness for C4 at a concrete input. -/
theorem lsp_job_start_distinct_failures_witness :
    lsp_job_start "nvim" 0
      = Except.error (JobStartFailure.invalidArgument "Invalid arguments for LSP")
    ∧ lsp_job_start "nvim" (-1)
      = Except.error (JobStartFailure.spawnFailure ("Not a valid executable: " ++ "nvim"))
    ∧ lsp_job_start "nvim" 5 = Except.ok 5 := by
  have h := lsp_job_start_distinct_failures "nvim" "nvim" 5
  exact ⟨h.1, h.2.1, h.2.2.2.2 (by decide) (by decide)⟩

/-! ## handlers.on_error and handlers.on_exit, lsp.lua 467-477 and 484-503 -/

/-- Result of running a piece of Lua code that may raise. -/
inductive LuaOutcome where
  | ok
  | raised (e : String)
deriving DecidableEq, Repr

/-- Lua pcall: traps a raise, returning the status and the trapped
error value. -/
def pcall_outcome : LuaOutcome → Bool × Option String
  | LuaOutcome.ok => (true, none)
  | LuaOutcome.raised e => (false, some e)

/-- What one handler run produces: the err_message writes it made, in
order, and the error it let escape, if any. -/
structure HandlerRun where
  emitted : List String
  escaped : Option String
deriving DecidableEq, Repr

/-- Embedding of handlers.on_error (lsp.lua 467-477): always reports
the client error through err_message; then, if a user on_error was
configured, runs it under pcall and reports a failure of the user
callback through a second err_message.  The argument user is none when
no config.on_error exists, else the outcome of running it. -/
def handlers_on_error (logTag codeName err : String) (user : Option LuaOutcome) : HandlerRun :=
  let base := [logTag ++ ": Error " ++ codeName ++ ": " ++ err]
  match user with
  | none => { emitted := base, escaped := none }
  | some outcome =>
    match pcall_outcome outcome with
    | (true, _) => { emitted := base, escaped := none }
    | (false, e) =>
      { emitted := base ++ [logTag ++ " user on_error failed: " ++ e.getD ""]
        escaped := none }

/-- The global client registries touched by handlers.on_exit. -/
structure LspGlobals where
  active_clients : List Nat
  uninitialized_clients : List Nat
  buffer_clients : List (Nat × List Nat)
deriving DecidableEq, Repr

/-- Embedding of handlers.on_exit (lsp.lua 484-503): deletes the client
from every registry (the scheduled per-buffer diagnostics clearing has
no bearing on error propagation and is not tracked), then runs the user
on_exit under pcall with both pcall results discarded: nothing is
emitted and nothing escapes, whatever the user callback does. -/
def handlers_on_exit (client_id : Nat) (g : LspGlobals) (user : Option LuaOutcome) :
    LspGlobals × HandlerRun :=
  let g2 : LspGlobals :=
    { active_clients := g.active_clients.filter (fun i => i != client_id)
      uninitialized_clients := g.uninitialized_clients.filter (fun i => i != client_id)
      buffer_clients := g.buffer_clients.map (fun p => (p.1, p.2.filter (fun i => i != client_id))) }
  let _ := user.map pcall_outcome
  (g2, { emitted := [], escaped := none })

/-- C5 (amended): an error raised in the user on_error callback is
caught by handlers.on_error and reported on the error-message surface;
an error raised in the user on_exit callback is caught by
handlers.on_exit but silently discarded; neither escapes its handler. -/
theorem user_callback_errors_confined (logTag codeName err e : String)
    (client_id : Nat) (g : LspGlobals) :
    (handlers_on_error logTag codeName err (some (LuaOutcome.raised e))).escaped = none
    ∧ (handlers_on_error logTag codeName err (some (LuaOutcome.raised e))).emitted
        = [logTag ++ ": Error " ++ codeName ++ ": " ++ err,
           logTag ++ " user on_error failed: " ++ e]
    ∧ (handlers_on_exit client_id g (some (LuaOutcome.raised e))).2.escaped = none
    ∧ (handlers_on_exit client_id g (some (LuaOutcome.raised e))).2.emitted = [] :=
  ⟨rfl, rfl, rfl, rfl⟩

/-- Concrete registry state for the C5 counterexample. -/
def globals0 : LspGlobals :=
  { active_clients := [1], uninitialized_clients := [], buffer_clients := [(1, [1])] }

/-- C5 counterexample: an error raised in the user on_exit callback
produces no report on the error-message surface (handlers.on_exit
discards the pcall result): the handler run emits nothing. -/
theorem on_exit_error_not_reported :
    (handlers_on_exit 1 globals0 (some (LuaOutcome.raised "boom"))).2
      = { emitted := [], escaped := none } := rfl

/-! ## buf_request_sync, lsp.lua 1037-1059 and wait_result_reason, line 65 -/

/-- Embedding of wait_result_reason (lsp.lua 65): the reason string for
each vim.wait failure code. -/
def wait_result_reason (r : Int) : Option String :=
  if r = -1 then some "timeout"
  else if r = -2 then some "interrupted"
  else if r = -3 then some "error"
  else none

/-- Modelled from the spec: the outcome of the vim.wait primitive (a
core editor primitive, not among the visible sources): either the
predicate became true within the millisecond budget, or failure with
reason -1 (timeout), -2 (interrupted) or -3 (error). -/
inductive WaitOutcome where
  | completed
  | failed (reason : Int)
deriving DecidableEq, Repr

/-- Return value of buf_request_sync: the results map or nil, the
failure reason string or nil, plus whether cancel() was invoked on the
outstanding requests. -/
structure SyncReturn (β : Type) where
  results : Option (List (Nat × β))
  err : Option String
  cancelled : Bool
deriving DecidableEq, Repr

/-- Embedding of the tail of lsp.buf_request_sync (lsp.lua 1050-1058):
given the request_results accumulated by the callbacks and the vim.wait
outcome, either return the map, or cancel all outstanding requests and
return nil with the reason string. -/
def buf_request_sync_return {β : Type} (request_results : List (Nat × β)) (w : WaitOutcome) :
    SyncReturn β :=
  match w with
  | WaitOutcome.completed =>
    { results := some request_results, err := none, cancelled := false }
  | WaitOutcome.failed r =>
    { results := none, err := wait_result_reason r, cancelled := true }

/-- C6: buf_request_sync returns the results map (no cancel) exactly on
wait completion; on any wait failure it cancels the outstanding
requests and returns nil with the reason string, and the three reason
strings timeout, interrupted, error are pairwise distinct (one per
failure code). -/
theorem buf_request_sync_distinct_statuses {β : Type} (request_results : List (Nat × β)) (r : Int) :
    buf_request_sync_return request_results WaitOutcome.completed
      = { results := some request_results, err := none, cancelled := false }
    ∧ ((r = -1 ∨ r = -2 ∨ r = -3) →
        (buf_request_sync_return request_results (WaitOutcome.failed r)).results = none
        ∧ (buf_request_sync_return request_results (WaitOutcome.failed r)).cancelled = true
        ∧ ∃ s, (buf_request_sync_return request_results (WaitOutcome.failed r)).err = some s)
    ∧ wait_result_reason (-1) = some "timeout"
    ∧ wait_result_reason (-2) = some "interrupted"
    ∧ wait_result_reason (-3) = some "error"
    ∧ (∀ a b : Int, a ∈ ([-1, -2, -3] : List Int) → b ∈ ([-1, -2, -3] : List Int) →
        a ≠ b → wait_result_reason a ≠ wait_result_reason b) := by
  refine ⟨rfl, ?_, rfl, rfl, rfl, ?_⟩
  · intro hr
    refine ⟨rfl, rfl, ?_⟩
    rcases hr with rfl | rfl | rfl
    · exact ⟨"timeout", rfl⟩
    · exact ⟨"interrupted", rfl⟩
    · exact ⟨"error", rfl⟩
  · intro a b ha hb hab
    simp only [List.mem_cons, List.mem_singleton, List.not_mem_nil, or_false] at ha hb
    rcases ha with rfl | rfl | rfl <;> rcases hb with rfl | rfl | rfl <;>
      first
        | exact absurd rfl hab
        | decide

/-- Witness for C6 at a concrete input. -/
theorem buf_request_sync_distinct_statuses_witness :
    buf_request_sync_return [(1, 42)] WaitOutcome.completed
      = { results := some [(1, 42)], err := none, cancelled := false }
    ∧ (buf_request_sync_return [(1, 42)] (WaitOutcome.failed (-1))).results = none
    ∧ (buf_request_sync_return [(1, 42)] (WaitOutcome.failed (-1))).cancelled = true
    ∧ wait_result_reason (-1) ≠ wait_result_reason (-2) := by
  have h := buf_request_sync_distinct_statuses [(1, 42)] (-1)
  refine ⟨h.1, (h.2.1 (Or.inl rfl)).1, (h.2.1 (Or.inl rfl)).2.1, ?_⟩
  exact h.2.2.2.2.2 (-1) (-2) (by simp) (by simp) (by decide)

end NvimModel
